import Mathlib

/-!
# Verification of `udp-client-server`

A shallow embedding of the freshest-packet UDP polling utility
(`src/include/udp_utils.h`, `UdpUtils::readUdp`) and of the resource
handling in the `UdpClient` / `UdpServer` constructors
(`src/src/udp_client_server.cpp`).

Buffers are `List Nat` (one entry per byte).  A call to the non-blocking
`UdpServer::recv` is modelled by a `RecvEvent`: either a datagram with its
bytes, or `none` when nothing is available (`recv` returns `-1`).  Each
event also carries the monotone-clock reading (`duration_cast<microseconds>`
count) taken at the end of that loop iteration; the code narrows that
reading into the `uint16_t` variable `elapsed_time_us`, which the model
renders as reduction mod `2^16`.
-/

namespace UdpUtils

/-- One attempted receive in the polling loop: `bytes = none` models
`recv` returning `-1` (nothing available / error), `bytes = some d` models
a datagram whose payload is `d`.  `elapsedAfter` is the microsecond count
of `std::chrono::duration_cast` measured at the end of this iteration. -/
structure RecvEvent where
  bytes : Option (List Nat)
  elapsedAfter : Nat
deriving DecidableEq, Repr

/-- The loop-local variables of `UdpUtils::readUdp`.
`highestSequenceNumber` mirrors the C++ variable `highest_sequence_number`;
note that the C++ body never assigns to it after its initialisation to `0`,
and the embedding is faithful to that. -/
structure LoopState where
  recvPacket : List Nat
  recvPacketTemp : List Nat
  udpError : Bool
  highestSequenceNumber : Nat
  sequenceNumber : Nat
  elapsedTimeUs : Nat
deriving DecidableEq, Repr

/-- `std::memcpy(&sequence_number, &recv_packet_temp[0], 4)`: the first four
bytes of the buffer read as a host-order (little-endian, x86) `uint32_t`. -/
def sequenceNumberOf (b : List Nat) : Nat :=
  b.getD 0 0 + 256 * b.getD 1 0 + 65536 * b.getD 2 0 + 16777216 * b.getD 3 0

/-- Writing the first `d.length` bytes of a buffer `t`, keeping its tail. -/
def overwriteFront (d t : List Nat) : List Nat :=
  d ++ t.drop d.length

/-- Two's-complement narrowing of an `int` to the `int16_t` variable
`bytes_received`: wrap-around modulo `2^16` into `[-32768, 32767]`. -/
def toInt16 (x : Int) : Int :=
  (x + 32768) % 65536 - 32768

/-- The value the assignment `int16_t bytes_received = udp_recv.recv(...)`
stores, with a buffer of `n` bytes: `-1` when nothing is available; for a
datagram that fits, its length narrowed to `int16_t` (lengths of 32768 and
above wrap negative); for an oversized datagram, Winsock's `SOCKET_ERROR`
(`-1`, error `WSAEMSGSIZE`). -/
def recvLen (n : Nat) : Option (List Nat) → Int
  | none => -1
  | some d => if d.length ≤ n then toInt16 d.length else -1

/-- `udp_recv.recv(recv_packet_temp.begin(), sizeof(recv_packet_temp))`:
the new contents of the `n`-byte buffer `t` and the byte count as stored in
the `int16_t` `bytes_received`.  A fitting datagram overwrites its first
`d.length` bytes; an oversized one is truncated to the first `n` bytes (and
reported as `-1`). -/
def recvModel (n : Nat) (t : List Nat) : Option (List Nat) → List Nat × Int
  | none => (t, -1)
  | some d =>
      if d.length ≤ n then (overwriteFront d t, toInt16 d.length)
      else (overwriteFront (d.take n) t, -1)

/-- A receive the code accepts as size-valid: the `int16_t` byte count
equals the expected fixed packet size `n` (`bytes_received ==
recv_packet.size()` in the source; a negative `int16_t` — `-1`, or a length
of 32768..65535 wrapped negative — converted to `size_t` never equals `n`,
and a nonnegative one is below 32768, so the `Int` comparison with `n`
renders the C++ comparison exactly for every `n`). -/
def isSizeValid (n : Nat) (e : RecvEvent) : Bool :=
  recvLen n e.bytes == (n : Int)

/-- One iteration of the `while` body of `UdpUtils::readUdp`, for expected
packet size `n` (for an `std::array<char, N>` both `sizeof(recv_packet_temp)`
and `recv_packet.size()` are `N`).  Returns the updated state and whether the
`break` was taken.  On `bytes_received == recv_packet.size()` the error flag
clears, the sequence number is read from the temp buffer, and
`recv_packet.swap(recv_packet_temp)` runs when it exceeds
`highest_sequence_number` (which the source never updates).  The `break`
fires when `(!udp_error) && (bytes_received == -1)`; the elapsed-time update
after it is skipped in that case. -/
def iterStep (n : Nat) (e : RecvEvent) (s : LoopState) : LoopState × Bool :=
  let r := recvModel n s.recvPacketTemp e.bytes
  let temp1 := r.1
  let bytesReceived := r.2
  let s1 :=
    if bytesReceived = (n : Int) then
      let seq := sequenceNumberOf temp1
      if s.highestSequenceNumber < seq then
        { s with udpError := false, sequenceNumber := seq,
                 recvPacket := temp1, recvPacketTemp := s.recvPacket }
      else
        { s with udpError := false, sequenceNumber := seq,
                 recvPacketTemp := temp1 }
    else
      { s with recvPacketTemp := temp1 }
  if s1.udpError = false ∧ bytesReceived = -1 then
    (s1, true)
  else
    ({ s1 with elapsedTimeUs := e.elapsedAfter % 65536 }, false)

/-- The `while (elapsed_time_us < timeout_us)` loop, driven by the (finite)
trace of receive attempts and clock readings. -/
def readUdpLoop (n timeoutUs : Nat) (s : LoopState) : List RecvEvent → LoopState
  | [] => s
  | e :: rest =>
      if s.elapsedTimeUs < timeoutUs then
        let step := iterStep n e s
        if step.2 then step.1 else readUdpLoop n timeoutUs step.1 rest
      else s

/-- Round-to-nearest, ties-to-even, of the nonnegative rational `a / b` to
an integer — the IEEE 754 default rounding used by binary64 division and
multiplication, applied at the grid where `a / b` is the scaled mantissa. -/
def rnEven (a b : Nat) : Nat :=
  let q := a / b
  let r := a % b
  if 2 * r < b then q
  else if b < 2 * r then q + 1
  else if q % 2 = 0 then q else q + 1

/-- `⌊log₂⌋` by explicit structural recursion on a fuel bound (so that it
evaluates inside the kernel); correct whenever `n < 2 ^ fuel`. -/
def log2Fuel : Nat → Nat → Nat
  | 0, _ => 0
  | fuel + 1, n => if 2 ≤ n then log2Fuel fuel (n / 2) + 1 else 0

/-- `⌊log₂ n⌋` for `1 ≤ n < 2^128` (every quantity in the timeout
computation is far below `2^128`). -/
def natLog2 (n : Nat) : Nat :=
  log2Fuel 128 n

/-- The 53-bit integer mantissa of the binary64 double literal `1.2`: the
value the source actually multiplies by is `mant12 · 2⁻⁵²`, which is
slightly below 6/5. -/
def mant12 : Nat := 5404319552844595

/-- Binary64 evaluation of the source expression `1.2 * (1000000.0 /
udp_rate)` followed by C++ float-to-integer truncation toward zero, carried
out exactly in integer arithmetic for `1 ≤ udpRate < 2^16` (the `uint16_t`
parameter domain).  `1000000.0 / udp_rate` is correctly rounded to the
53-bit mantissa `m1` at exponent `e1 - 52` (the quotient lies in
`[2^e1, 2^(e1+1))`); the product with the `1.2` literal is exactly
`mant12 * m1` at exponent `e1 - 104`, correctly rounded to the 53-bit
mantissa `m2` at exponent `e1 + L - 156`; that exponent is negative
throughout the domain, so truncation toward zero is a right shift. -/
def timeoutDoubleFloor (udpRate : Nat) : Nat :=
  let e1 := natLog2 (1000000 / udpRate)
  let m1 := rnEven (1000000 * 2 ^ (52 - e1)) udpRate
  let P := mant12 * m1
  let L := natLog2 P
  let m2 := rnEven P (2 ^ (L - 52))
  m2 / 2 ^ (156 - e1 - L)

/-- `uint16_t timeout_us = 1.2 * (1000000.0 / udp_rate)`: the truncated
binary64 value stored into the `uint16_t` variable.  For rates of 19 Hz and
above the value fits; below that the conversion is out of range (undefined
behaviour in C++), which the model renders as reduction mod `2^16` — no
claim relies on that range. -/
def timeout_us (udpRate : Nat) : Nat :=
  timeoutDoubleFloor udpRate % 65536

/-- `UdpUtils::readUdp`: polls for at most the timeout window, keeps the
"freshest" size-valid packet in the caller's buffer, and returns the error
flag (`true` = no size-valid packet observed).  The expected packet size is
the caller buffer's length; the temp buffer starts zero-initialised
(`T recv_packet_temp = {0}`), `udp_error` starts `1`, and
`highest_sequence_number` and `elapsed_time_us` start `0`. -/
def readUdp (udpRate : Nat) (recvPacket : List Nat) (events : List RecvEvent) :
    List Nat × Bool :=
  let n := recvPacket.length
  let s0 : LoopState :=
    { recvPacket := recvPacket
      recvPacketTemp := List.replicate n 0
      udpError := true
      highestSequenceNumber := 0
      sequenceNumber := 0
      elapsedTimeUs := 0 }
  let s := readUdpLoop n (timeout_us udpRate) s0 events
  (s.recvPacket, s.udpError)

/-- The prefix of an event trace the loop can possibly consume: every event
up to and including the first whose stored (`uint16_t`) clock reading has
reached the timeout.  The loop tests `elapsed_time_us < timeout_us` only at
the top, so the event that crosses the bound is itself still processed. -/
def eventsUntilTimeout (timeoutUs : Nat) : List RecvEvent → List RecvEvent
  | [] => []
  | e :: rest =>
      if e.elapsedAfter % 65536 < timeoutUs then
        e :: eventsUntilTimeout timeoutUs rest
      else [e]

/-- The events of a trace that one `readUdp` call actually processes, given
the expected size `n`, the timeout, and the current stored clock reading and
error flag.  Mirrors the loop's control flow: stop at the timeout test, and
stop after an event that triggers the early `break`. -/
def processedEvents (n timeoutUs : Nat) (elapsed : Nat) (err : Bool) :
    List RecvEvent → List RecvEvent
  | [] => []
  | e :: rest =>
      if elapsed < timeoutUs then
        let r := recvLen n e.bytes
        let err1 := if r = (n : Int) then false else err
        if err1 = false ∧ r = -1 then [e]
        else e :: processedEvents n timeoutUs (e.elapsedAfter % 65536) err1 rest
      else []

end UdpUtils

namespace UdpClientServer

/-- The outcomes of the fallible Winsock primitives a constructor calls, in
program order: `getaddrinfo`, `socket`, `ioctlsocket(FIONBIO)` and (server
only) `bind`. -/
structure WinsockEnv where
  getaddrinfoOk : Bool
  socketOk : Bool
  ioctlOk : Bool
  bindOk : Bool
deriving DecidableEq, Repr

/-- What a constructor run did with the two releasable resources:
whether it returned normally (`constructed`), whether the resolved address
info was acquired and `freeaddrinfo`d before return/throw, and whether the
socket was acquired and `closesocket`d before return/throw. -/
structure ConstructOutcome where
  constructed : Bool
  addrinfoAcquired : Bool
  addrinfoFreed : Bool
  socketAcquired : Bool
  socketClosed : Bool
deriving DecidableEq, Repr

/-- `UdpClient::UdpClient` (src/src/udp_client_server.cpp): on `getaddrinfo`
failure it throws having acquired nothing; on `socket` failure it calls
`freeaddrinfo` and throws; on `ioctlsocket` (set non-blocking) failure it
calls only `WSACleanup()` and throws — neither `freeaddrinfo` nor
`closesocket` runs on that path. -/
def udpClientConstruct (env : WinsockEnv) : ConstructOutcome :=
  if env.getaddrinfoOk = false then
    { constructed := false, addrinfoAcquired := false, addrinfoFreed := false
      socketAcquired := false, socketClosed := false }
  else if env.socketOk = false then
    { constructed := false, addrinfoAcquired := true, addrinfoFreed := true
      socketAcquired := false, socketClosed := false }
  else if env.ioctlOk = false then
    { constructed := false, addrinfoAcquired := true, addrinfoFreed := false
      socketAcquired := true, socketClosed := false }
  else
    { constructed := true, addrinfoAcquired := true, addrinfoFreed := false
      socketAcquired := true, socketClosed := false }

/-- `UdpServer::UdpServer`: as the client, plus a final `bind`; on `bind`
failure it calls `freeaddrinfo`, `closesocket` and `WSACleanup` before
throwing.  The `ioctlsocket` failure path again releases neither the
address info nor the socket. -/
def udpServerConstruct (env : WinsockEnv) : ConstructOutcome :=
  if env.getaddrinfoOk = false then
    { constructed := false, addrinfoAcquired := false, addrinfoFreed := false
      socketAcquired := false, socketClosed := false }
  else if env.socketOk = false then
    { constructed := false, addrinfoAcquired := true, addrinfoFreed := true
      socketAcquired := false, socketClosed := false }
  else if env.ioctlOk = false then
    { constructed := false, addrinfoAcquired := true, addrinfoFreed := false
      socketAcquired := true, socketClosed := false }
  else if env.bindOk = false then
    { constructed := false, addrinfoAcquired := true, addrinfoFreed := true
      socketAcquired := true, socketClosed := true }
  else
    { constructed := true, addrinfoAcquired := true, addrinfoFreed := false
      socketAcquired := true, socketClosed := false }

end UdpClientServer

namespace UdpUtils

/-! ### Helper lemmas about one loop iteration -/

theorem recvModel_snd (n : Nat) (t : List Nat) (b : Option (List Nat)) :
    (recvModel n t b).2 = recvLen n b := by
  cases b with
  | none => rfl
  | some d =>
      simp only [recvModel, recvLen]
      split <;> rfl

theorem neg_one_ne_natCast (n : Nat) : (-1 : Int) ≠ (n : Int) := by
  omega

theorem iterStep_highest (n : Nat) (e : RecvEvent) (s : LoopState) :
    (iterStep n e s).1.highestSequenceNumber = s.highestSequenceNumber := by
  simp only [iterStep]
  split <;> split <;> simp_all

theorem iterStep_of_invalid (n : Nat) (e : RecvEvent) (s : LoopState)
    (h : recvLen n e.bytes ≠ (n : Int)) :
    (iterStep n e s).1.recvPacket = s.recvPacket ∧
      (iterStep n e s).1.udpError = s.udpError := by
  simp only [iterStep, recvModel_snd]
  rw [if_neg h]
  split <;> simp

theorem iterStep_brk_true (n : Nat) (e : RecvEvent) (s : LoopState)
    (h : (iterStep n e s).2 = true) :
    (iterStep n e s).1.udpError = false ∧ recvLen n e.bytes = -1 := by
  simp only [iterStep, recvModel_snd] at h ⊢
  split_ifs at h ⊢ <;> simp_all

theorem iterStep_elapsed_of_brk_false (n : Nat) (e : RecvEvent) (s : LoopState)
    (h : (iterStep n e s).2 = false) :
    (iterStep n e s).1.elapsedTimeUs = e.elapsedAfter % 65536 := by
  simp only [iterStep, recvModel_snd] at h ⊢
  split_ifs at h ⊢ <;> simp_all

theorem iterStep_udpError (n : Nat) (e : RecvEvent) (s : LoopState) :
    (iterStep n e s).1.udpError =
      (if recvLen n e.bytes = (n : Int) then false else s.udpError) := by
  simp only [iterStep, recvModel_snd]
  split_ifs <;> simp_all

theorem readUdpLoop_of_not_lt {n t : Nat} {s : LoopState}
    (h : ¬ s.elapsedTimeUs < t) (l : List RecvEvent) :
    readUdpLoop n t s l = s := by
  cases l <;> simp [readUdpLoop, h]

theorem recvLen_some_eq_iff (n : Nat) (d : List Nat) :
    recvLen n (some d) = (n : Int) ↔ n < 32768 ∧ d.length = n := by
  simp only [recvLen]
  split
  · next hle =>
      simp only [toInt16]
      omega
  · next hgt =>
      constructor
      · intro hc
        exact (neg_one_ne_natCast n hc).elim
      · intro hc
        exact (hgt (le_of_eq hc.2)).elim

/-! ### The rounding steps of the timeout computation -/

theorem rnEven_bounds (a b : Nat) (hb : 0 < b) :
    2 * a ≤ 2 * b * rnEven a b + b ∧ 2 * b * rnEven a b ≤ 2 * a + b := by
  have h1 : b * (a / b) + a % b = a := Nat.div_add_mod a b
  have h2 : a % b < b := Nat.mod_lt a hb
  have h3 : 2 * b * (a / b) = 2 * (b * (a / b)) := by ring
  have h4 : 2 * b * (a / b + 1) = 2 * (b * (a / b)) + 2 * b := by ring
  simp only [rnEven]
  split_ifs <;> omega

theorem log2Fuel_spec :
    ∀ (fuel n : Nat), 1 ≤ n → n < 2 ^ fuel →
      2 ^ log2Fuel fuel n ≤ n ∧ n < 2 ^ (log2Fuel fuel n + 1) := by
  intro fuel
  induction fuel with
  | zero =>
      intro n h1 h2
      norm_num at h2
      omega
  | succ fuel ih =>
      intro n h1 h2
      simp only [log2Fuel]
      by_cases hn : 2 ≤ n
      · rw [if_pos hn]
        have hdiv : 1 ≤ n / 2 := by omega
        have hlt : n / 2 < 2 ^ fuel := by
          rw [pow_succ] at h2
          omega
        obtain ⟨hl, hr⟩ := ih (n / 2) hdiv hlt
        rw [pow_succ] at hr
        constructor
        · rw [pow_succ]
          omega
        · rw [pow_succ, pow_succ]
          omega
      · rw [if_neg hn]
        norm_num
        omega

theorem natLog2_spec (n : Nat) (h1 : 1 ≤ n) (h2 : n < 2 ^ 128) :
    2 ^ natLog2 n ≤ n ∧ n < 2 ^ (natLog2 n + 1) :=
  log2Fuel_spec 128 n h1 h2

theorem readUdpLoop_eventsUntilTimeout (n t : Nat) (l : List RecvEvent) :
    ∀ s : LoopState, readUdpLoop n t s l = readUdpLoop n t s (eventsUntilTimeout t l) := by
  induction l with
  | nil => intro s; rfl
  | cons e rest ih =>
      intro s
      by_cases hs : s.elapsedTimeUs < t
      · by_cases he : e.elapsedAfter % 65536 < t
        · simp only [eventsUntilTimeout, if_pos he, readUdpLoop, if_pos hs]
          by_cases hb : (iterStep n e s).2 = true
          · simp [hb]
          · simp only [Bool.not_eq_true] at hb
            simp [hb, ih]
        · simp only [eventsUntilTimeout, if_neg he, readUdpLoop, if_pos hs]
          by_cases hb : (iterStep n e s).2 = true
          · simp [hb]
          · simp only [Bool.not_eq_true] at hb
            simp only [hb, Bool.false_eq_true, if_false]
            have hel : (iterStep n e s).1.elapsedTimeUs = e.elapsedAfter % 65536 :=
              iterStep_elapsed_of_brk_false n e s hb
            rw [readUdpLoop_of_not_lt (by rw [hel]; exact he) rest]
      · rw [readUdpLoop_of_not_lt hs, readUdpLoop_of_not_lt hs]

set_option maxRecDepth 8000 in
/-- Claim C1 (code bug evaluated): two size-valid 8-byte packets arrive,
sequence 5 first, then sequence 3.  Because the source never updates
`highest_sequence_number` after a swap, the later sequence-3 packet also
passes the `sequence_number > highest_sequence_number` test (3 > 0) and
replaces the retained sequence-5 packet: the call returns the sequence-3
payload with the error flag false, not the maximum-sequence packet. -/
theorem readUdp_retains_stale_lower_sequence :
    readUdp 200 [9, 9, 9, 9, 9, 9, 9, 9]
        [⟨some [5, 0, 0, 0, 55, 55, 55, 55], 100⟩,
         ⟨some [3, 0, 0, 0, 33, 33, 33, 33], 200⟩] =
      ([3, 0, 0, 0, 33, 33, 33, 33], false) ∧
    sequenceNumberOf [5, 0, 0, 0, 55, 55, 55, 55] = 5 ∧
    sequenceNumberOf [3, 0, 0, 0, 33, 33, 33, 33] = 3 := by decide

set_option maxRecDepth 8000 in
/-- Claim C2 (code bug evaluated): two size-valid packets carrying the same
sequence number 5 arrive (payloads differing after the sequence field).
The source never updates `highest_sequence_number`, so the duplicate also
passes the strict comparison (5 > 0) and replaces the first copy: the call
retains the second copy, not the first-seen one. -/
theorem readUdp_retains_second_duplicate :
    readUdp 200 [7, 7, 7, 7, 7, 7, 7, 7]
        [⟨some [5, 0, 0, 0, 1, 1, 1, 1], 100⟩,
         ⟨some [5, 0, 0, 0, 2, 2, 2, 2], 200⟩] =
      ([5, 0, 0, 0, 2, 2, 2, 2], false) ∧
    sequenceNumberOf [5, 0, 0, 0, 1, 1, 1, 1] =
      sequenceNumberOf [5, 0, 0, 0, 2, 2, 2, 2] := by decide

set_option maxHeartbeats 1600000 in
theorem timeoutDoubleFloor_bounds :
    ∀ r : Nat, 0 < r → r < 65536 →
      1200000 / r - 1 ≤ timeoutDoubleFloor r ∧ timeoutDoubleFloor r ≤ 1200000 / r := by
  intro r hr hru
  simp only [timeoutDoubleFloor]
  set e1 := natLog2 (1000000 / r) with he1def
  set m1 := rnEven (1000000 * 2 ^ (52 - e1)) r with hm1def
  set L := natLog2 (mant12 * m1) with hLdef
  set m2 := rnEven (mant12 * m1) (2 ^ (L - 52)) with hm2def
  clear_value m2 L m1 e1
  have hr2 : r ≤ 65535 := by omega
  -- the quotient 1000000 / r and its binade
  have hn0ge : 15 ≤ 1000000 / r := by
    rw [Nat.le_div_iff_mul_le hr]
    omega
  have hn0lt : 1000000 / r < 2 ^ 20 :=
    lt_of_le_of_lt (Nat.div_le_self _ _) (by norm_num)
  have he1spec := natLog2_spec (1000000 / r) (by omega) (lt_trans hn0lt (by norm_num))
  rw [← he1def] at he1spec
  have he1le : e1 ≤ 19 := by
    by_contra hcon
    have h20 : (2 : Nat) ^ 20 ≤ 2 ^ e1 := Nat.pow_le_pow_right (by norm_num) (by omega)
    have := he1spec.1
    omega
  have hdl : 2 ^ e1 * r ≤ 1000000 := by
    calc 2 ^ e1 * r ≤ 1000000 / r * r := Nat.mul_le_mul_right r he1spec.1
      _ ≤ 1000000 := Nat.div_mul_le_self _ _
  have hdu : 1000000 < 2 ^ (e1 + 1) * r := (Nat.div_lt_iff_lt_mul hr).1 he1spec.2
  -- first rounding: m1 within half an ulp of 1000000·2^(52-e1) / r
  have hm1b := rnEven_bounds (1000000 * 2 ^ (52 - e1)) r hr
  rw [← hm1def] at hm1b
  -- binade of the rounded quotient mantissa: 2^52 ≤ m1 ≤ 2^53
  have hNl : r * 2 ^ 52 ≤ 1000000 * 2 ^ (52 - e1) := by
    have hps : 2 ^ (52 - e1) * 2 ^ e1 = 2 ^ 52 := by
      rw [← pow_add]
      congr 1
      omega
    calc r * 2 ^ 52 = 2 ^ e1 * r * 2 ^ (52 - e1) := by rw [← hps]; ring
      _ ≤ 1000000 * 2 ^ (52 - e1) := Nat.mul_le_mul_right _ hdl
  have hNu : 1000000 * 2 ^ (52 - e1) < r * 2 ^ 53 := by
    have hps : 2 ^ (52 - e1) * 2 ^ (e1 + 1) = 2 ^ 53 := by
      rw [← pow_add]
      congr 1
      omega
    calc 1000000 * 2 ^ (52 - e1) < 2 ^ (e1 + 1) * r * 2 ^ (52 - e1) :=
          (Nat.mul_lt_mul_right (pow_pos (by norm_num) _)).2 hdu
      _ = r * 2 ^ 53 := by rw [← hps]; ring
  have hm1ge : 2 ^ 52 ≤ m1 := by
    by_contra hcon
    have hstep : 2 * r * (m1 + 1) ≤ 2 * r * 2 ^ 52 :=
      Nat.mul_le_mul_left (2 * r) (by omega)
    have h1 := hm1b.1
    linarith [hNl, hr]
  have hm1le : m1 ≤ 2 ^ 53 := by
    by_contra hcon
    have hstep : 2 * r * (2 ^ 53 + 1) ≤ 2 * r * m1 :=
      Nat.mul_le_mul_left (2 * r) (by omega)
    have h2 := hm1b.2
    linarith [hNu, hr]
  -- binade of the exact product mant12 · m1: between 2^104 and 2^106
  have hPl : (2 : Nat) ^ 104 < mant12 * m1 := by
    have h1 : mant12 * 2 ^ 52 ≤ mant12 * m1 := Nat.mul_le_mul_left mant12 hm1ge
    have h2 : (2 : Nat) ^ 104 < mant12 * 2 ^ 52 := by norm_num [mant12]
    omega
  have hPu : mant12 * m1 < 2 ^ 106 := by
    have h1 : mant12 * m1 ≤ mant12 * 2 ^ 53 := Nat.mul_le_mul_left mant12 hm1le
    have h2 : mant12 * 2 ^ 53 < 2 ^ 106 := by norm_num [mant12]
    omega
  have hLspec := natLog2_spec (mant12 * m1) (by omega) (lt_trans hPu (by norm_num))
  rw [← hLdef] at hLspec
  have hL104 : 104 ≤ L := by
    by_contra hcon
    have h2 : (2 : Nat) ^ (L + 1) ≤ 2 ^ 104 := Nat.pow_le_pow_right (by norm_num) (by omega)
    have h3 := hLspec.2
    omega
  have hL105 : L ≤ 105 := by
    by_contra hcon
    have h1 : (2 : Nat) ^ 106 ≤ 2 ^ L := Nat.pow_le_pow_right (by norm_num) (by omega)
    have := hLspec.1
    omega
  -- second rounding: m2 within half an ulp of the exact product
  have hB0 : (0 : Nat) < 2 ^ (L - 52) := pow_pos (by norm_num) _
  have hm2b := rnEven_bounds (mant12 * m1) (2 ^ (L - 52)) hB0
  rw [← hm2def] at hm2b
  clear hm2def hLdef hm1def he1def
  have hBu : (2 : Nat) ^ (L - 52) ≤ 2 ^ 53 := Nat.pow_le_pow_right (by norm_num) (by omega)
  -- grid identity: 2^(156-e1-L) · 2^(L-52) = 2^(52-e1) · 2^52
  have hKB : 2 ^ (156 - e1 - L) * 2 ^ (L - 52) = 2 ^ (52 - e1) * 2 ^ 52 := by
    rw [← pow_add, ← pow_add]
    congr 1
    omega
  have hA33 : (2 : Nat) ^ 33 ≤ 2 ^ (52 - e1) := Nat.pow_le_pow_right (by norm_num) (by omega)
  -- facts about the exact floor F = 1200000 / r
  have hFdm := Nat.div_add_mod 1200000 r
  have hFmod : 1200000 % r < r := Nat.mod_lt 1200000 hr
  have hF1 : 1200000 / r * r ≤ 1200000 := Nat.div_mul_le_self _ _
  have hF2 : 1200000 < 1200000 / r * r + r := by
    linarith [hFdm, hFmod]
  have hK0 : (0 : Nat) < 2 ^ (156 - e1 - L) := pow_pos (by norm_num) _
  have hBr : 2 ^ (L - 52) * r ≤ 2 ^ 53 * 65535 := Nat.mul_le_mul hBu hr2
  have hrA : 2 ^ (52 - e1) * 1 ≤ 2 ^ (52 - e1) * r := Nat.mul_le_mul_left _ hr
  constructor
  · -- lower bound: F - 1 ≤ m2 / 2^(156-e1-L), via F·K ≤ m2 + K, scaled by 2·r·B
    have hmain : 2 * r * 2 ^ (L - 52) * (1200000 / r * 2 ^ (156 - e1 - L)) ≤
        2 * r * 2 ^ (L - 52) * (m2 + 2 ^ (156 - e1 - L)) := by
      have hS1 : r * (2 * (mant12 * m1)) ≤ r * (2 * 2 ^ (L - 52) * m2 + 2 ^ (L - 52)) :=
        Nat.mul_le_mul_left r hm2b.1
      have hS2 : mant12 * (2 * (1000000 * 2 ^ (52 - e1))) ≤ mant12 * (2 * r * m1 + r) :=
        Nat.mul_le_mul_left mant12 hm1b.1
      have hscale : 1200000 / r * r * (2 ^ (52 - e1) * 2 ^ 52) ≤
          1200000 * (2 ^ (52 - e1) * 2 ^ 52) :=
        Nat.mul_le_mul_right _ hF1
      have hgoal : 2 * r * 2 ^ (L - 52) * (1200000 / r * 2 ^ (156 - e1 - L)) =
          2 * (1200000 / r * r) * (2 ^ (156 - e1 - L) * 2 ^ (L - 52)) := by ring
      rw [hgoal, hKB]
      have hgoal2 : 2 * r * 2 ^ (L - 52) * (m2 + 2 ^ (156 - e1 - L)) =
          2 * r * (2 ^ (L - 52) * m2) + 2 * r * (2 ^ (156 - e1 - L) * 2 ^ (L - 52)) := by
        ring
      rw [hgoal2, hKB]
      simp only [mant12] at hS1 hS2
      linarith [hS1, hS2, hscale, hBr, hA33, hrA, hr2]
    have hcancel : 1200000 / r * 2 ^ (156 - e1 - L) ≤ m2 + 2 ^ (156 - e1 - L) := by
      have h0 : 0 < 2 * r * 2 ^ (L - 52) := by positivity
      exact Nat.le_of_mul_le_mul_left hmain h0
    have hdivle : 1200000 / r ≤ (m2 + 2 ^ (156 - e1 - L)) / 2 ^ (156 - e1 - L) :=
      (Nat.le_div_iff_mul_le hK0).2 hcancel
    rw [Nat.add_div_right _ hK0] at hdivle
    exact Nat.sub_le_iff_le_add.2 hdivle
  · -- upper bound: m2 / 2^(156-e1-L) ≤ F, via m2 < (F+1)·K, scaled by 2·r·B
    have hmain : 2 * r * 2 ^ (L - 52) * m2 <
        2 * r * 2 ^ (L - 52) * ((1200000 / r + 1) * 2 ^ (156 - e1 - L)) := by
      have hS1 : r * (2 * 2 ^ (L - 52) * m2) ≤ r * (2 * (mant12 * m1) + 2 ^ (L - 52)) :=
        Nat.mul_le_mul_left r hm2b.2
      have hS2 : mant12 * (2 * r * m1) ≤ mant12 * (2 * (1000000 * 2 ^ (52 - e1)) + r) :=
        Nat.mul_le_mul_left mant12 hm1b.2
      have hscale : 1200001 * (2 ^ (52 - e1) * 2 ^ 52) ≤
          (1200000 / r * r + r) * (2 ^ (52 - e1) * 2 ^ 52) :=
        Nat.mul_le_mul_right _ (by linarith [hF2])
      have hgoal : 2 * r * 2 ^ (L - 52) * ((1200000 / r + 1) * 2 ^ (156 - e1 - L)) =
          2 * (1200000 / r * r + r) * (2 ^ (156 - e1 - L) * 2 ^ (L - 52)) := by ring
      rw [hgoal, hKB]
      simp only [mant12] at hS1 hS2
      linarith [hS1, hS2, hscale, hBr, hA33, hrA, hr2]
    have hcancel : m2 < (1200000 / r + 1) * 2 ^ (156 - e1 - L) :=
      Nat.lt_of_mul_lt_mul_left hmain
    have hdivlt : m2 / 2 ^ (156 - e1 - L) < 1200000 / r + 1 :=
      (Nat.div_lt_iff_lt_mul hK0).2 hcancel
    exact Nat.lt_succ_iff.1 hdivlt

set_option maxRecDepth 8000 in
/-- Claim C4 (counterexample): at rate 19 Hz the stored `uint16_t` timeout
is 63157 μs — the binary64 evaluation of `1.2 * (1000000.0 / 19)` truncated
toward zero — which is not exactly the real value `1.2 × (1,000,000 / 19) =
1200000 / 19`, so the window is not "exactly `1.2 × (1,000,000 / rate)`
microseconds" for every rate. -/
theorem timeout_us_not_exact :
    ((timeout_us 19 : Nat) : ℚ) ≠ 1200000 / 19 := by
  have h1 : timeout_us 19 = 63157 := by decide
  rw [h1]
  intro hc
  norm_num at hc

set_option maxRecDepth 8000 in
/-- Claim C4 (amended): for every representable rate greater than 0 the
stored window is the binary64 evaluation of `1.2 × (1,000,000 / rate)`
truncated toward zero — at most `⌊1,200,000 / rate⌋` μs and at least one
less (the double literal `1.2` lies below 6/5, so the product can fall just
under an exact integer: at 48 Hz the code stores 24999 although the exact
value is 25000); at 200 Hz the evaluation is exact and the window is
6000 μs. -/
theorem timeout_us_spec :
    (∀ r : Nat, 0 < r → r < 65536 →
        1200000 / r - 1 ≤ timeoutDoubleFloor r ∧ timeoutDoubleFloor r ≤ 1200000 / r) ∧
    timeout_us 200 = 6000 ∧ timeout_us 48 = 24999 ∧ 1200000 / 48 = 25000 :=
  ⟨timeoutDoubleFloor_bounds, by decide, by decide, by decide⟩

theorem timeout_us_spec_witness :
    1200000 / 200 - 1 ≤ timeoutDoubleFloor 200 ∧ timeoutDoubleFloor 200 ≤ 1200000 / 200 :=
  timeout_us_spec.1 200 (by decide) (by decide)

/-- Claim C5: for every rate and every pattern of datagram arrivals, the
polling loop of `readUdp` is a total function of the event trace (it never
blocks: `recv` is non-blocking) and its result depends only on the events up
to and including the first one whose stored clock reading has reached the
timeout window `timeout_us rate` — every later event is ignored, so the call
returns within the window plus the one iteration that observes its
expiry. -/
theorem readUdp_stops_at_timeout (udpRate : Nat) (recvPacket : List Nat)
    (events : List RecvEvent) :
    readUdp udpRate recvPacket events =
      readUdp udpRate recvPacket
        (eventsUntilTimeout (timeout_us udpRate) events) := by
  simp only [readUdp]
  rw [← readUdpLoop_eventsUntilTimeout]

set_option maxRecDepth 8000 in
/-- Claim C6: a receive whose returned byte count differs from the expected
fixed packet size `n` — including the `-1` nothing-available result — leaves
the caller's scratch buffer and the error flag exactly as they were, and a
single packet one byte shorter than expected therefore leaves the error flag
true for the whole call. -/
theorem readUdp_size_gate :
    (∀ (n : Nat) (e : RecvEvent) (s : LoopState),
        recvLen n e.bytes ≠ (n : Int) →
          (iterStep n e s).1.recvPacket = s.recvPacket ∧
          (iterStep n e s).1.udpError = s.udpError) ∧
    readUdp 200 [9, 9, 9, 9, 9, 9, 9, 9] [⟨some [1, 2, 3, 4, 5, 6, 7], 100⟩] =
      ([9, 9, 9, 9, 9, 9, 9, 9], true) :=
  ⟨iterStep_of_invalid, by decide⟩

set_option maxRecDepth 8000 in
theorem readUdp_size_gate_witness :
    (iterStep 8 ⟨some [1, 2, 3, 4, 5, 6, 7], 100⟩
        ⟨[9, 9, 9, 9, 9, 9, 9, 9], [0, 0, 0, 0, 0, 0, 0, 0], true, 0, 0, 0⟩).1.recvPacket =
      [9, 9, 9, 9, 9, 9, 9, 9] ∧
    (iterStep 8 ⟨some [1, 2, 3, 4, 5, 6, 7], 100⟩
        ⟨[9, 9, 9, 9, 9, 9, 9, 9], [0, 0, 0, 0, 0, 0, 0, 0], true, 0, 0, 0⟩).1.udpError =
      true :=
  readUdp_size_gate.1 8 ⟨some [1, 2, 3, 4, 5, 6, 7], 100⟩
    ⟨[9, 9, 9, 9, 9, 9, 9, 9], [0, 0, 0, 0, 0, 0, 0, 0], true, 0, 0, 0⟩ (by decide)

/-- Claim C7: once the error flag is already false (a size-valid packet is in
hand) and the next receive attempt yields nothing (`-1`), the loop takes the
`break` at once: the remaining events of the trace are never examined, so the
call returns without waiting out the rest of the window. -/
theorem readUdpLoop_idle_early_exit (n t : Nat) (s : LoopState) (e : RecvEvent)
    (rest : List RecvEvent) (herr : s.udpError = false) (hb : e.bytes = none) :
    readUdpLoop n t s (e :: rest) = readUdpLoop n t s [e] := by
  by_cases hs : s.elapsedTimeUs < t
  · have hbrk : (iterStep n e s).2 = true := by
      simp only [iterStep, hb, recvModel]
      rw [if_neg (neg_one_ne_natCast n)]
      simp [herr]
    simp only [readUdpLoop, if_pos hs, hbrk, if_true]
  · rw [readUdpLoop_of_not_lt hs, readUdpLoop_of_not_lt hs]

theorem readUdpLoop_idle_early_exit_witness :
    readUdpLoop 8 6000
        ⟨[5, 0, 0, 0, 1, 1, 1, 1], [9, 9, 9, 9, 9, 9, 9, 9], false, 0, 5, 100⟩
        [⟨none, 200⟩, ⟨some [6, 0, 0, 0, 2, 2, 2, 2], 300⟩] =
      readUdpLoop 8 6000
        ⟨[5, 0, 0, 0, 1, 1, 1, 1], [9, 9, 9, 9, 9, 9, 9, 9], false, 0, 5, 100⟩
        [⟨none, 200⟩] :=
  readUdpLoop_idle_early_exit 8 6000
    ⟨[5, 0, 0, 0, 1, 1, 1, 1], [9, 9, 9, 9, 9, 9, 9, 9], false, 0, 5, 100⟩
    ⟨none, 200⟩ [⟨some [6, 0, 0, 0, 2, 2, 2, 2], 300⟩] rfl rfl

theorem iterStep_snd_true_iff (n : Nat) (e : RecvEvent) (s : LoopState) :
    (iterStep n e s).2 = true ↔
      ((if recvLen n e.bytes = (n : Int) then false else s.udpError) = false ∧
        recvLen n e.bytes = -1) := by
  simp only [iterStep, recvModel_snd]
  split_ifs <;> simp_all

theorem readUdpLoop_udpError_eq (n t : Nat) (l : List RecvEvent) :
    ∀ s : LoopState,
      (readUdpLoop n t s l).udpError =
        (s.udpError &&
          !((processedEvents n t s.elapsedTimeUs s.udpError l).any (isSizeValid n))) := by
  induction l with
  | nil => intro s; simp [readUdpLoop, processedEvents]
  | cons e rest ih =>
      intro s
      by_cases hs : s.elapsedTimeUs < t
      · simp only [readUdpLoop, if_pos hs, processedEvents]
        by_cases hr : recvLen n e.bytes = (n : Int)
        · have hne : recvLen n e.bytes ≠ -1 := by
            rw [hr]; exact fun hc => neg_one_ne_natCast n hc.symm
          have hbk : (iterStep n e s).2 = false := by
            rw [Bool.eq_false_iff]
            rw [Ne, iterStep_snd_true_iff]
            exact fun hc => hne hc.2
          have herr : (iterStep n e s).1.udpError = false := by
            rw [iterStep_udpError, if_pos hr]
          have hvalid : isSizeValid n e = true := by
            simp [isSizeValid, hr]
          simp only [hbk, Bool.false_eq_true, if_false, if_pos hr]
          rw [if_neg (fun hc => hne hc.2)]
          simp only [List.any_cons, hvalid, Bool.true_or, Bool.not_true, Bool.and_false]
          rw [ih (iterStep n e s).1, herr]
          rfl
        · have hvalid : isSizeValid n e = false := by
            simp [isSizeValid, hr]
          by_cases hbrk : s.udpError = false ∧ recvLen n e.bytes = -1
          · have hbk : (iterStep n e s).2 = true := by
              rw [iterStep_snd_true_iff]
              exact ⟨by rw [if_neg hr]; exact hbrk.1, hbrk.2⟩
            have herr : (iterStep n e s).1.udpError = s.udpError := by
              rw [iterStep_udpError, if_neg hr]
            simp only [hbk, if_true, if_neg hr]
            rw [if_pos hbrk]
            simp [herr, hvalid, hbrk.1]
          · have hbk : (iterStep n e s).2 = false := by
              rw [Bool.eq_false_iff]
              rw [Ne, iterStep_snd_true_iff]
              rw [if_neg hr]
              exact hbrk
            have herr : (iterStep n e s).1.udpError = s.udpError := by
              rw [iterStep_udpError, if_neg hr]
            have hel : (iterStep n e s).1.elapsedTimeUs = e.elapsedAfter % 65536 :=
              iterStep_elapsed_of_brk_false n e s hbk
            simp only [hbk, Bool.false_eq_true, if_false, if_neg hr]
            rw [if_neg hbrk]
            rw [ih (iterStep n e s).1, herr, hel]
            simp [hvalid]
      · simp [readUdpLoop_of_not_lt hs, processedEvents, hs]

theorem readUdpLoop_frame (n t : Nat) (l : List RecvEvent) :
    ∀ s : LoopState, (∀ e ∈ l, isSizeValid n e = false) →
      (readUdpLoop n t s l).recvPacket = s.recvPacket ∧
      (readUdpLoop n t s l).udpError = s.udpError := by
  induction l with
  | nil => intro s _; exact ⟨rfl, rfl⟩
  | cons e rest ih =>
      intro s hall
      by_cases hs : s.elapsedTimeUs < t
      · have he : isSizeValid n e = false := hall e (List.mem_cons_self e rest)
        have hr : recvLen n e.bytes ≠ (n : Int) := by
          simpa [isSizeValid] using he
        simp only [readUdpLoop, if_pos hs]
        by_cases hbk : (iterStep n e s).2 = true
        · simp only [hbk, if_true]
          exact iterStep_of_invalid n e s hr
        · simp only [Bool.not_eq_true] at hbk
          simp only [hbk, Bool.false_eq_true, if_false]
          have h1 := iterStep_of_invalid n e s hr
          obtain ⟨hrecv, herr⟩ :=
            ih (iterStep n e s).1 (fun e' he' => hall e' (List.mem_cons_of_mem _ he'))
          exact ⟨hrecv.trans h1.1, herr.trans h1.2⟩
      · rw [readUdpLoop_of_not_lt hs]
        exact ⟨rfl, rfl⟩

theorem readUdp_wrap_large (n : Nat) (h1 : 32768 ≤ n) (h2 : n < 65536) :
    readUdp 200 (List.replicate n 7) [⟨some (List.replicate n 0), 100⟩] =
      (List.replicate n 7, true) := by
  simp only [readUdp, List.length_replicate]
  obtain ⟨ha, hb⟩ :=
    readUdpLoop_frame n (timeout_us 200) [⟨some (List.replicate n 0), 100⟩]
      ⟨List.replicate n 7, List.replicate n 0, true, 0, 0, 0⟩
      (by
        intro e he
        simp only [List.mem_singleton] at he
        subst he
        simp only [isSizeValid, recvLen, List.length_replicate]
        rw [if_pos (le_refl n)]
        simp only [toInt16, beq_eq_false_iff_ne]
        intro hc
        omega)
  rw [ha, hb]

/-- Claim C8 (counterexample): with an expected packet size of 32768 bytes,
a single datagram of exactly 32768 bytes — byte length exactly equal to the
expected fixed packet size — is delivered within the window, yet `readUdp`
returns the error flag true (and the buffer untouched): the assignment
`int16_t bytes_received = ...` wraps 32768 to −32768, so the comparison with
`recv_packet.size()` fails and the packet is never accepted. -/
theorem readUdp_exact_size_kept_error :
    readUdp 200 (List.replicate 32768 7) [⟨some (List.replicate 32768 0), 100⟩] =
      (List.replicate 32768 7, true) ∧
    (List.replicate (32768 : Nat) (0 : Nat)).length = (List.replicate 32768 7).length :=
  ⟨readUdp_wrap_large 32768 (le_refl _) (by norm_num),
   by rw [List.length_replicate, List.length_replicate]⟩

/-- Claim C8 (amended): the error flag `readUdp` returns is true exactly
when none of the receives the call processed within its window passed the
code's size test — the `int16_t`-narrowed byte count equalling
`recv_packet.size()` — and false exactly when at least one did.  For
expected sizes below 32768 that test holds exactly of the datagrams whose
byte length equals the expected fixed packet size; for sizes of 32768 and
above the narrowed count wraps negative and no datagram ever passes.  The
call is a total function of its inputs (its only outcome is the returned
pair — it raises nothing). -/
theorem readUdp_error_iff_size_accepted :
    (∀ (udpRate : Nat) (recvPacket : List Nat) (events : List RecvEvent),
        (readUdp udpRate recvPacket events).2 =
          !((processedEvents recvPacket.length (timeout_us udpRate) 0 true events).any
              (isSizeValid recvPacket.length))) ∧
    (∀ (n : Nat) (e : RecvEvent), n < 32768 →
        (isSizeValid n e = true ↔ ∃ d, e.bytes = some d ∧ d.length = n)) := by
  constructor
  · intro udpRate recvPacket events
    simp only [readUdp]
    rw [readUdpLoop_udpError_eq]
    rfl
  · intro n e hn
    cases hb : e.bytes with
    | none =>
        simp only [isSizeValid, hb, recvLen, beq_iff_eq]
        constructor
        · intro hc
          exact (neg_one_ne_natCast n hc).elim
        · rintro ⟨d, hd, -⟩
          exact Option.noConfusion hd
    | some d =>
        simp only [isSizeValid, hb, beq_iff_eq, recvLen_some_eq_iff]
        constructor
        · rintro ⟨-, hlen⟩
          exact ⟨d, rfl, hlen⟩
        · rintro ⟨d2, hd2, hlen⟩
          obtain rfl := Option.some.inj hd2
          exact ⟨hn, hlen⟩

theorem readUdp_error_iff_size_accepted_witness :
    isSizeValid 8 ⟨some [1, 2, 3, 4, 5, 6, 7, 8], 100⟩ = true ↔
      ∃ d, (⟨some [1, 2, 3, 4, 5, 6, 7, 8], 100⟩ : RecvEvent).bytes = some d ∧
        d.length = 8 :=
  readUdp_error_iff_size_accepted.2 8 ⟨some [1, 2, 3, 4, 5, 6, 7, 8], 100⟩ (by decide)

/-- Claim C9: when no receive during the whole window is size-valid, the call
returns the error flag true and the caller's scratch buffer byte-for-byte as
it was at entry (only the separate temporary buffer is ever written). -/
theorem readUdp_no_valid_unchanged (udpRate : Nat) (recvPacket : List Nat)
    (events : List RecvEvent)
    (h : ∀ e ∈ events, isSizeValid recvPacket.length e = false) :
    readUdp udpRate recvPacket events = (recvPacket, true) := by
  simp only [readUdp]
  obtain ⟨h1, h2⟩ :=
    readUdpLoop_frame recvPacket.length (timeout_us udpRate) events
      ⟨recvPacket, List.replicate recvPacket.length 0, true, 0, 0, 0⟩ h
  exact Prod.ext h1 h2

set_option maxRecDepth 8000 in
theorem readUdp_no_valid_unchanged_witness :
    readUdp 200 [1, 2, 3, 4] [⟨some [8, 8], 100⟩, ⟨none, 200⟩] = ([1, 2, 3, 4], true) :=
  readUdp_no_valid_unchanged 200 [1, 2, 3, 4] [⟨some [8, 8], 100⟩, ⟨none, 200⟩]
    (by decide)

theorem sequenceNumberOf_overwriteFront (d t : List Nat) (h : 4 ≤ d.length) :
    sequenceNumberOf (overwriteFront d t) = sequenceNumberOf d := by
  unfold sequenceNumberOf overwriteFront
  rw [List.getD_append _ _ _ _ (by omega), List.getD_append _ _ _ _ (by omega),
    List.getD_append _ _ _ _ (by omega), List.getD_append _ _ _ _ (by omega)]

theorem iterStep_recvPacket_of_no_swap (n : Nat) (e : RecvEvent) (s : LoopState)
    (h : ∀ d, e.bytes = some d → d.length = n →
        ¬ s.highestSequenceNumber < sequenceNumberOf (overwriteFront d s.recvPacketTemp)) :
    (iterStep n e s).1.recvPacket = s.recvPacket := by
  cases hb : e.bytes with
  | none =>
      refine (iterStep_of_invalid n e s ?_).1
      rw [hb]
      exact neg_one_ne_natCast n
  | some d =>
      by_cases hd : recvLen n (some d) = (n : Int)
      · obtain ⟨hn32, hdn⟩ := (recvLen_some_eq_iff n d).1 hd
        have hle : d.length ≤ n := le_of_eq hdn
        have hnoswap := h d hb hdn
        have hcast : toInt16 (d.length : Int) = (n : Int) := by
          have h2 := hd
          simp only [recvLen, if_pos hle] at h2
          exact h2
        simp only [iterStep, recvModel, hb]
        rw [if_pos hle, if_pos hcast, if_neg hnoswap]
        rw [if_neg (fun hc => neg_one_ne_natCast n ((hcast.symm.trans hc.2).symm))]
      · refine (iterStep_of_invalid n e s ?_).1
        rw [hb]
        exact hd

theorem readUdpLoop_no_swap_of_seq_zero (n t : Nat) (hn : 4 ≤ n) (l : List RecvEvent) :
    ∀ s : LoopState, s.highestSequenceNumber = 0 →
      (∀ e ∈ l, ∀ d, e.bytes = some d → d.length = n → sequenceNumberOf d = 0) →
      (readUdpLoop n t s l).recvPacket = s.recvPacket := by
  induction l with
  | nil => intro s _ _; rfl
  | cons e rest ih =>
      intro s hh hall
      by_cases hs : s.elapsedTimeUs < t
      · simp only [readUdpLoop, if_pos hs]
        have hrecv : (iterStep n e s).1.recvPacket = s.recvPacket := by
          refine iterStep_recvPacket_of_no_swap n e s (fun d hb hd => ?_)
          rw [hh, sequenceNumberOf_overwriteFront d _ (hd ▸ hn),
            hall e (List.mem_cons_self e rest) d hb hd]
          omega
        by_cases hbk : (iterStep n e s).2 = true
        · simp only [hbk, if_true]
          exact hrecv
        · simp only [Bool.not_eq_true] at hbk
          simp only [hbk, Bool.false_eq_true, if_false]
          rw [ih (iterStep n e s).1 (by rw [iterStep_highest]; exact hh)
              (fun e' he' => hall e' (List.mem_cons_of_mem _ he'))]
          exact hrecv
      · rw [readUdpLoop_of_not_lt hs]

set_option maxRecDepth 8000 in
/-- Claim C10: because `highest_sequence_number` starts at 0 and the
replacement test is strict, a size-valid packet whose embedded sequence
number is 0 clears the error flag but is never copied into the caller's
buffer: whenever every fitting packet carries sequence 0 the buffer is
returned untouched, and a single such packet makes `readUdp` report success
(`false`) with the buffer completely unchanged. -/
theorem readUdp_seq_zero_success :
    (∀ (udpRate : Nat) (recvPacket : List Nat) (events : List RecvEvent),
        4 ≤ recvPacket.length →
        (∀ e ∈ events, ∀ d, e.bytes = some d → d.length = recvPacket.length →
            sequenceNumberOf d = 0) →
        (readUdp udpRate recvPacket events).1 = recvPacket) ∧
    readUdp 200 [9, 9, 9, 9, 9, 9, 9, 9] [⟨some [0, 0, 0, 0, 7, 7, 7, 7], 100⟩] =
      ([9, 9, 9, 9, 9, 9, 9, 9], false) := by
  constructor
  · intro udpRate recvPacket events hn hall
    simp only [readUdp]
    exact readUdpLoop_no_swap_of_seq_zero recvPacket.length (timeout_us udpRate) hn events
      ⟨recvPacket, List.replicate recvPacket.length 0, true, 0, 0, 0⟩ rfl hall
  · decide

set_option maxRecDepth 8000 in
theorem readUdp_seq_zero_success_witness :
    (readUdp 200 [1, 2, 3, 4, 5, 6, 7, 8] [⟨some [0, 0, 0, 0, 3, 3, 3, 3], 50⟩]).1 =
      [1, 2, 3, 4, 5, 6, 7, 8] :=
  readUdp_seq_zero_success.1 200 [1, 2, 3, 4, 5, 6, 7, 8]
    [⟨some [0, 0, 0, 0, 3, 3, 3, 3], 50⟩] (by decide)
    (by
      intro e he d hb hd
      simp only [List.mem_singleton] at he
      subst he
      have hd2 := Option.some.inj hb
      subst hd2
      decide)

end UdpUtils

namespace UdpClientServer

/-- Claim C3 (code bug evaluated): when `getaddrinfo` and `socket` succeed
but `ioctlsocket(FIONBIO)` (setting non-blocking mode) fails, both the
`UdpClient` and the `UdpServer` constructor throw after calling only
`WSACleanup()`: the resolved address info is not freed and the socket is
not closed, so that failure path leaks both acquired resources. -/
theorem construct_nonblocking_failure_leaks :
    (udpClientConstruct ⟨true, true, false, true⟩).constructed = false ∧
    (udpClientConstruct ⟨true, true, false, true⟩).addrinfoAcquired = true ∧
    (udpClientConstruct ⟨true, true, false, true⟩).addrinfoFreed = false ∧
    (udpClientConstruct ⟨true, true, false, true⟩).socketAcquired = true ∧
    (udpClientConstruct ⟨true, true, false, true⟩).socketClosed = false ∧
    (udpServerConstruct ⟨true, true, false, true⟩).constructed = false ∧
    (udpServerConstruct ⟨true, true, false, true⟩).addrinfoFreed = false ∧
    (udpServerConstruct ⟨true, true, false, true⟩).socketClosed = false := by
  decide

end UdpClientServer

